import Mathlib

/-
Verification development for the create-hono-app scaffolding tool.
The definitions below are a shallow embedding of the TypeScript sources:
the OpenAPI parsing module (src/parsers/openapi.ts), the three generator
modules (routes, handlers, db schema) and the CLI action (bin/cli.ts).
JavaScript strings are modelled as Lean String values; the ASCII-only
regular expressions of the source are modelled with the corresponding
ASCII character predicates.  Fallible code is modelled with Except, and
the file writing effects of one generation run are modelled as an
explicit event trace.
-/

namespace Hono

/-- ASCII model of the JavaScript String.prototype.toUpperCase call,
applied character by character. -/
def jsToUpperCase (s : String) : String :=
  String.mk (s.toList.map Char.toUpper)

/-- ASCII model of the JavaScript String.prototype.toLowerCase call,
applied character by character. -/
def jsToLowerCase (s : String) : String :=
  String.mk (s.toList.map Char.toLower)

/-- Whitespace test used to model String.prototype.trim. -/
def isJsSpace (c : Char) : Bool :=
  c = ' ' || c = '\t' || c = '\n' || c = '\r'

/-- Model of the JavaScript String.prototype.trim call: strip leading and
trailing whitespace. -/
def jsTrim (s : String) : String :=
  String.mk (((s.toList.dropWhile isJsSpace).reverse.dropWhile isJsSpace).reverse)

/-- Character class of the regular expression [a-zA-Z0-9] used by
generateOperationId in src/parsers/openapi.ts (Char.isAlphanum is exactly
the ASCII a-z, A-Z, 0-9 test). -/
def isAlnumChar (c : Char) : Bool := c.isAlphanum

/-- Character class of the app name regular expression in bin/cli.ts,
namely [a-zA-Z0-9-_]. -/
def isAppNameChar (c : Char) : Bool :=
  c.isAlphanum || c = '-' || c = '_'

/-- An OpenAPI schema value as far as the generators inspect it: a type
tag and an optional items sub-schema (used for arrays).  The leaf
constructor is a schema object without an items member, the node
constructor one with an items member.  Other members of a schema object
are never read by the code under verification. -/
inductive OASchema where
  | leaf (type : Option String)
  | node (type : Option String) (items : OASchema)
deriving DecidableEq, Repr

/-- The type member of a schema object (undefined modelled as none). -/
def OASchema.type : OASchema → Option String
  | .leaf t => t
  | .node t _ => t

/-- The items member of a schema object (undefined modelled as none). -/
def OASchema.items : OASchema → Option OASchema
  | .leaf _ => none
  | .node _ i => some i

/-- The drizzleType Handlebars helper registered in
src/generators/schema.ts: a switch on the type member of a property
schema, falling back to a text column. -/
def drizzleType (property : OASchema) : String :=
  if property.type = some "string" then "text()"
  else if property.type = some "integer" then "integer()"
  else if property.type = some "number" then "real()"
  else if property.type = some "boolean" then "integer(\x7b mode: \"boolean\" \x7d)"
  else "text()"

/-- The zodType Handlebars helper registered in src/generators/routes.ts.
The helper is registered as an anonymous arrow function, so the
identifier zodType used in its own array branch is not bound anywhere in
the module (the source carries a ts-ignore comment on that line);
evaluating that branch raises a ReferenceError at run time.  The branch
is therefore modelled as an error result. -/
def zodType (schema : Option OASchema) : Except String String :=
  match schema with
  | none => Except.ok "z.unknown()"
  | some s =>
    if s.type = some "string" then Except.ok "z.string()"
    else if s.type = some "number" then Except.ok "z.number()"
    else if s.type = some "integer" then Except.ok "z.number().int()"
    else if s.type = some "boolean" then Except.ok "z.boolean()"
    else if s.type = some "array" then Except.error "ReferenceError: zodType is not defined"
    else Except.ok "z.unknown()"

/-- True when the zodType helper raises instead of returning a validator
expression, which happens exactly on an array typed schema. -/
def zodTypeFails (schema : Option OASchema) : Bool :=
  match zodType schema with
  | Except.error _ => true
  | Except.ok _ => false

/-- The camelCase Handlebars helper in src/generators/routes.ts:
str.charAt(0).toLowerCase() + str.slice(1). -/
def camelCase (s : String) : String :=
  match s.toList with
  | [] => ""
  | c :: cs => String.mk (Char.toLower c :: cs)

/-- The pascalCase Handlebars helper in src/generators/routes.ts:
str.charAt(0).toUpperCase() + str.slice(1). -/
def pascalCase (s : String) : String :=
  match s.toList with
  | [] => ""
  | c :: cs => String.mk (Char.toUpper c :: cs)

/-- One step of the snakeCase helper: the replacement performed for a
single character by str.replace with the pattern [A-Z]. -/
def snakeStep (c : Char) : List Char :=
  if c.isUpper then ['_', Char.toLower c] else [c]

/-- Character level body of the snakeCase helper. -/
def snakeChars : List Char → List Char
  | [] => []
  | c :: cs => snakeStep c ++ snakeChars cs

/-- The snakeCase Handlebars helper in src/generators/schema.ts:
str.replace of every ASCII uppercase letter by an underscore followed by
its lowercase form. -/
def snakeCase (s : String) : String :=
  String.mk (snakeChars s.toList)

/-- The statusCodeConstant Handlebars helper in src/generators/routes.ts:
a fixed table from status code strings to symbolic names, defaulting to
the literal code. -/
def statusCodeConstant (code : String) : String :=
  if code = "200" then "OK"
  else if code = "201" then "CREATED"
  else if code = "204" then "NO_CONTENT"
  else if code = "400" then "BAD_REQUEST"
  else if code = "401" then "UNAUTHORIZED"
  else if code = "404" then "NOT_FOUND"
  else if code = "422" then "UNPROCESSABLE_ENTITY"
  else if code = "500" then "INTERNAL_SERVER_ERROR"
  else code

/-- A parameter entry of an operation: either an inline parameter object
or a cross-reference object carrying a ref string. -/
inductive ParamOrRef where
  | ref (r : String)
  | param (name : String) (paramIn : String) (required : Option Bool) (schema : Option OASchema)
deriving DecidableEq, Repr

/-- A response entry value: either an inline response object or a
cross-reference object.  The description member of a response object and
its optional content map are the only members the parser reads. -/
inductive RespOrRef where
  | ref (r : String)
  | response (description : String) (content : Option (List (String × OASchema)))
deriving DecidableEq, Repr

/-- A request body: either an inline request body object or a
cross-reference object. -/
inductive BodyOrRef where
  | ref (r : String)
  | body (required : Option Bool) (content : Option (List (String × OASchema)))
deriving DecidableEq, Repr

/-- An operation object of the document, with every member optional
(undefined modelled as none), exactly the members read by
parseEndpoints in src/parsers/openapi.ts. -/
structure OperationObject where
  operationId : Option String
  summary : Option String
  description : Option String
  tags : Option (List String)
  parameters : Option (List ParamOrRef)
  requestBody : Option BodyOrRef
  responses : Option (List (String × RespOrRef))
deriving DecidableEq, Repr

/-- The operation object whose members are all undefined; member access
on a non-object path item value yields undefined for every member, which
this value models. -/
def emptyOperation : OperationObject :=
  { operationId := none, summary := none, description := none, tags := none,
    parameters := none, requestBody := none, responses := none }

/-- A value stored under a key of a path item object.  Besides operation
objects, a path item may carry scalar members (for example a summary
string); null models a null or undefined entry value. -/
inductive PathItemValue where
  | null
  | str (s : String)
  | op (o : OperationObject)
deriving DecidableEq, Repr

/-- JavaScript falsiness of a path item entry value: null and the empty
string are falsy, every object and nonempty string is truthy. -/
def PathItemValue.isFalsy : PathItemValue → Bool
  | .null => true
  | .str s => s = ""
  | .op _ => false

/-- The cast performed by the source (operation as OperationObject):
member access on a non-object value yields undefined for every member. -/
def PathItemValue.asOp : PathItemValue → OperationObject
  | .op o => o
  | _ => emptyOperation

/-- The entries of the paths object: pairs of a path string and a path
item, where a path item is its ordered list of key and value pairs.  A
none path item models a null entry, skipped by the source. -/
abbrev PathsObject := List (String × Option (List (String × PathItemValue)))

/-- An entry of the components.schemas section.  The properties member is
none when the schema object has no properties key (the source keeps only
entries carrying one). -/
structure ComponentSchema where
  properties : Option (List (String × OASchema))
  required : Option (List String)
deriving DecidableEq, Repr

/-- The info block of the document. -/
structure SpecInfo where
  title : String
  version : String
  description : Option String
deriving DecidableEq, Repr

/-- The decoded OpenAPI document, as far as parseOpenAPISpec reads it.
The paths member models spec.paths (undefined as none) and the
components member flattens spec.components?.schemas. -/
structure Document where
  paths : Option PathsObject
  components : Option (List (String × ComponentSchema))
  info : SpecInfo
deriving DecidableEq, Repr

/-- The ParsedParameter record of src/parsers/openapi.ts.  The field
paramIn models the member named in of the source, a Lean keyword. -/
structure ParsedParameter where
  name : String
  paramIn : String
  required : Bool
  schema : Option OASchema
deriving DecidableEq, Repr

/-- The ParsedRequestBody record of src/parsers/openapi.ts. -/
structure ParsedRequestBody where
  required : Bool
  content : List (String × OASchema)
deriving DecidableEq, Repr

/-- The ParsedResponse record of src/parsers/openapi.ts. -/
structure ParsedResponse where
  statusCode : String
  description : String
  content : Option (List (String × OASchema))
deriving DecidableEq, Repr

/-- The ParsedEndpoint record of src/parsers/openapi.ts. -/
structure ParsedEndpoint where
  path : String
  method : String
  operationId : String
  summary : Option String
  description : Option String
  tags : List String
  parameters : List ParsedParameter
  requestBody : Option ParsedRequestBody
  responses : List ParsedResponse
deriving DecidableEq, Repr

/-- The ParsedSchema record of src/parsers/openapi.ts. -/
structure ParsedSchema where
  name : String
  properties : List (String × OASchema)
  required : List String
deriving DecidableEq, Repr

/-- The ParsedOpenAPI record of src/parsers/openapi.ts. -/
structure ParsedOpenAPI where
  endpoints : List ParsedEndpoint
  schemas : List ParsedSchema
  info : SpecInfo
deriving DecidableEq, Repr

/-- The generateOperationId helper: the method string followed by the
path with every character outside [a-zA-Z0-9] removed. -/
def generateOperationId (method : String) (path : String) : String :=
  method ++ String.mk (path.toList.filter isAlnumChar)

/-- The parseParameters helper: maps each entry to a ParsedParameter and
throws on the first cross-reference entry. -/
def parseParameters : List ParamOrRef → Except String (List ParsedParameter)
  | [] => Except.ok []
  | ParamOrRef.ref _ :: _ => Except.error "Parameter references not yet supported"
  | ParamOrRef.param n pin req sch :: rest =>
      match parseParameters rest with
      | Except.error e => Except.error e
      | Except.ok r =>
          Except.ok ({ name := n, paramIn := pin, required := req.getD false, schema := sch } :: r)

/-- The parseRequestBody helper: undefined and cross-reference bodies
both yield undefined; an inline body is normalized with required
defaulting to false and content to an empty map. -/
def parseRequestBody : Option BodyOrRef → Option ParsedRequestBody
  | none => none
  | some (BodyOrRef.ref _) => none
  | some (BodyOrRef.body req content) =>
      some { required := req.getD false, content := content.getD [] }

/-- The parseResponses helper: maps each status code entry to a
ParsedResponse and throws on the first cross-reference entry. -/
def parseResponses : List (String × RespOrRef) → Except String (List ParsedResponse)
  | [] => Except.ok []
  | (_, RespOrRef.ref _) :: _ => Except.error "Response references not yet supported"
  | (code, RespOrRef.response d content) :: rest =>
      match parseResponses rest with
      | Except.error e => Except.error e
      | Except.ok r => Except.ok ({ statusCode := code, description := d, content := content } :: r)

/-- One iteration of the inner loop of parseEndpoints: the entry keyed
parameters and falsy entry values are skipped, every other entry is cast
to an operation object and normalized into a ParsedEndpoint. -/
def parseOperationEntry (path : String) (method : String) (v : PathItemValue) :
    Except String (Option ParsedEndpoint) :=
  if method = "parameters" ∨ v.isFalsy then Except.ok none
  else
    match parseParameters (v.asOp.parameters.getD []) with
    | Except.error e => Except.error e
    | Except.ok params =>
      match parseResponses (v.asOp.responses.getD []) with
      | Except.error e => Except.error e
      | Except.ok resps =>
        Except.ok (some {
          path := path
          method := jsToUpperCase method
          operationId :=
            match v.asOp.operationId with
            | some s => if s = "" then generateOperationId method path else s
            | none => generateOperationId method path
          summary := v.asOp.summary
          description := v.asOp.description
          tags := v.asOp.tags.getD ["default"]
          parameters := params
          requestBody := parseRequestBody v.asOp.requestBody
          responses := resps })

/-- The inner loop of parseEndpoints over the entries of one path item,
collecting endpoints in source order. -/
def parsePathItem (path : String) : List (String × PathItemValue) →
    Except String (List ParsedEndpoint)
  | [] => Except.ok []
  | (m, v) :: rest =>
      match parseOperationEntry path m v with
      | Except.error e => Except.error e
      | Except.ok eOpt =>
          match parsePathItem path rest with
          | Except.error e => Except.error e
          | Except.ok restEs =>
              match eOpt with
              | some ep => Except.ok (ep :: restEs)
              | none => Except.ok restEs

/-- One entry of the paths object: a null path item is skipped, any
other is walked by the inner loop. -/
def parsePathsEntry (p : String) (item : Option (List (String × PathItemValue))) :
    Except String (List ParsedEndpoint) :=
  match item with
  | none => Except.ok []
  | some entries => parsePathItem p entries

/-- The parseEndpoints helper of src/parsers/openapi.ts: walks the paths
object in source order, skipping null path items. -/
def parseEndpoints : PathsObject → Except String (List ParsedEndpoint)
  | [] => Except.ok []
  | (p, item) :: rest =>
      match parsePathsEntry p item with
      | Except.error e => Except.error e
      | Except.ok es =>
          match parseEndpoints rest with
          | Except.error e => Except.error e
          | Except.ok restEs => Except.ok (es ++ restEs)

/-- The parseSchemas helper of src/parsers/openapi.ts: keeps exactly the
component schema entries that carry a properties member. -/
def parseSchemas : List (String × ComponentSchema) → List ParsedSchema
  | [] => []
  | (n, s) :: rest =>
      match s.properties with
      | some props => { name := n, properties := props, required := s.required.getD [] } :: parseSchemas rest
      | none => parseSchemas rest

/-- The parseOpenAPISpec entry point of src/parsers/openapi.ts, over an
already decoded document (file loading and JSON or YAML decoding are
outside the scope of this development).  The endpoints member of the
result object is computed first, so a parse failure there aborts the
whole call. -/
def parseOpenAPISpec (doc : Document) : Except String ParsedOpenAPI :=
  match parseEndpoints (doc.paths.getD []) with
  | Except.error e => Except.error e
  | Except.ok eps =>
      Except.ok { endpoints := eps, schemas := parseSchemas (doc.components.getD []), info := doc.info }

/-- The tag key of an endpoint as computed by the grouping reduce in
getEndpointsByTag, generateRoutes and generateHandlers: the JavaScript
expression endpoint.tags[0] with a default fallback, where both an
out-of-range index and an empty first tag are falsy. -/
def firstTag (e : ParsedEndpoint) : String :=
  match e.tags with
  | [] => "default"
  | t :: _ => if t = "" then "default" else t

/-- One step of the grouping reduce: push the endpoint onto the array
stored under its tag key, creating the key (at the end, in insertion
order) when it is not yet present. -/
def addToGroups (acc : List (String × List ParsedEndpoint)) (e : ParsedEndpoint) :
    List (String × List ParsedEndpoint) :=
  let tag := firstTag e
  if acc.any (fun g => g.1 = tag) then
    acc.map (fun g => if g.1 = tag then (g.1, g.2 ++ [e]) else g)
  else
    acc ++ [(tag, [e])]

/-- The getEndpointsByTag helper of src/parsers/openapi.ts.  The same
reduce is inlined verbatim in generateRoutes (src/generators/routes.ts)
and generateHandlers (src/generators/handlers.ts).  A JavaScript object
with string keys is modelled as an association list in key insertion
order. -/
def getEndpointsByTag (endpoints : List ParsedEndpoint) : List (String × List ParsedEndpoint) :=
  endpoints.foldl addToGroups []

/-- The array stored under a tag key of the grouping result, the empty
list when the key is absent. -/
def findGroup (t : String) (gs : List (String × List ParsedEndpoint)) : List ParsedEndpoint :=
  match gs.find? (fun g => g.1 = t) with
  | some g => g.2
  | none => []

/-- A destination path written during one generation run.  Scaffold
names are the files produced by the template tree walk; the other
constructors are the files the three generators derive from the IR
(src/routes/TAG.routes.ts, src/routes/TAG.handlers.ts and
src/db/schema.ts, with TAG already lower-cased). -/
inductive OutPath where
  | scaffold (name : String)
  | routesFile (tag : String)
  | handlersFile (tag : String)
  | schemaFile
deriving DecidableEq, Repr

/-- One observable effect of a generation run: the Normalizer invocation,
a directory creation, or a file write. -/
inductive FsEvent where
  | normalize
  | mkdirTarget
  | mkdirRoutes
  | write (p : OutPath)
deriving DecidableEq, Repr

/-- True when rendering the route template of src/generators/routes.ts
for this endpoint throws.  The template invokes zodType on the schema of
every path and query parameter (its array branch raises a
ReferenceError, see zodType), invokes the never registered helper
getSchemaName when the endpoint has a nonempty parameter list and a
request body (Handlebars throws a missing helper error for an unknown
helper applied to an argument), and invokes the never registered helper
getResponseSchema on every response carrying a content member.  The
guard on the parameter list mirrors the Handlebars if helper, for which
an empty array is falsy; a present content object is truthy even when
empty, hence the isSome tests. -/
def endpointRouteRenderFails (e : ParsedEndpoint) : Bool :=
  (if e.parameters.isEmpty then false
   else
     (e.parameters.filter (fun p => p.paramIn = "path")).any (fun p => zodTypeFails p.schema)
     || (e.parameters.filter (fun p => p.paramIn = "query")).any (fun p => zodTypeFails p.schema)
     || e.requestBody.isSome)
  || e.responses.any (fun r => r.content.isSome)

/-- The per group loop of generateRoutes in src/generators/routes.ts:
for each tag group in insertion order, ensure the routes directory,
render the route template and write the file named by the lower-cased
tag.  The render throws when some endpoint of the group trips a failing
helper invocation (endpointRouteRenderFails); the loop then stops after
the directory creation of that iteration, neither that file nor the
files of the remaining groups are written, and the exception propagates
to the caller.  The Bool component records whether the loop threw. -/
def generateRoutesEventsAux : List (String × List ParsedEndpoint) → List FsEvent × Bool
  | [] => ([], false)
  | g :: rest =>
    match g.2.any endpointRouteRenderFails with
    | true => ([FsEvent.mkdirRoutes], true)
    | false =>
      let r := generateRoutesEventsAux rest
      (FsEvent.mkdirRoutes :: FsEvent.write (OutPath.routesFile (jsToLowerCase g.1)) :: r.1, r.2)

/-- The effects of generateRoutes in src/generators/routes.ts, over the
tag groups of the endpoint list. -/
def generateRoutesEvents (endpoints : List ParsedEndpoint) : List FsEvent × Bool :=
  generateRoutesEventsAux (getEndpointsByTag endpoints)

/-- The effects of generateHandlers in src/generators/handlers.ts: per
tag group, ensure the routes directory and write the handlers file named
by the lower-cased tag.  The handler template invokes only the helpers
eq (registered by generateHandlers itself), camelCase and pascalCase
(registered by generateRoutes, which always runs first) besides plain
path lookups, so its render never throws. -/
def generateHandlersEvents (endpoints : List ParsedEndpoint) : List FsEvent :=
  (getEndpointsByTag endpoints).foldr
    (fun g acc => FsEvent.mkdirRoutes :: FsEvent.write (OutPath.handlersFile (jsToLowerCase g.1)) :: acc) []

/-- The effects of generateSchema in src/generators/schema.ts: return
without writing anything when the schema list is empty, otherwise write
the single db schema file. -/
def generateSchemaEvents (schemas : List ParsedSchema) : List FsEvent :=
  if schemas.length = 0 then [] else [FsEvent.write OutPath.schemaFile]

/-- The validateAppName check of bin/cli.ts: an empty or blank name and
a name with a character outside [a-zA-Z0-9-_] both throw; the result is
the thrown message, none when the name passes. -/
def validateAppName (appName : String) : Option String :=
  if jsTrim appName = "" then some "App name cannot be empty"
  else if appName.toList.all isAppNameChar then none
  else some "App name can only contain letters, numbers, hyphens, and underscores"

/-- The OpenAPI spec argument of one run: whether the file at the given
path exists, and the decoded document. -/
structure SpecFile where
  fileExists : Bool
  doc : Document
deriving DecidableEq, Repr

/-- The program action of bin/cli.ts, modelled as the ordered trace of
file system effects together with the error message of the caught throw
(none on success).  The template tree walk is modelled by one scaffold
write per file of the template tree, passed in as the templates list.
The endpoints member of the spread parsed spec is always a defined
array, modelled as a some value, on which the source performs its
undefined test.  When the route template render throws inside
generateRoutes, the catch block reports the failure and the process
exits nonzero before generateHandlers and generateSchema run; the text
of the thrown message depends on the first failing helper (a
ReferenceError for zodType on an array schema, a missing helper error
for getSchemaName or getResponseSchema), which the model does not
reproduce: it records one fixed message, and no theorem depends on its
wording. -/
def runAction (appName : String) (targetExists : Bool) (spec : Option SpecFile)
    (templates : List String) : List FsEvent × Option String :=
  match validateAppName appName with
  | some e => ([], some e)
  | none =>
    if targetExists then ([], some ("Folder \"" ++ appName ++ "\" already exists."))
    else
      match spec with
      | none => ([], none)
      | some sf =>
        if sf.fileExists = false then ([], some "OpenAPI spec file not found")
        else
          match parseOpenAPISpec sf.doc with
          | Except.error e => ([FsEvent.normalize], some e)
          | Except.ok parsed =>
            match some parsed.endpoints with
            | some _ =>
              let walkEvents := templates.map (fun n => FsEvent.write (OutPath.scaffold n))
              let routes := generateRoutesEvents parsed.endpoints
              match routes.2 with
              | true =>
                (FsEvent.normalize :: FsEvent.mkdirTarget :: (walkEvents ++ routes.1),
                 some "route template render failed")
              | false =>
                (FsEvent.normalize :: FsEvent.mkdirTarget ::
                  (walkEvents ++ routes.1
                    ++ generateHandlersEvents parsed.endpoints
                    ++ generateSchemaEvents parsed.schemas), none)
            | none =>
              ([FsEvent.normalize, FsEvent.mkdirTarget], some "No endpoints found in OpenAPI spec")

/-- The write events of a trace, in order. -/
def writesOf (events : List FsEvent) : List OutPath :=
  events.filterMap (fun e => match e with | FsEvent.write p => some p | _ => none)

/-- Test for a cross-reference parameter entry. -/
def isRefParam : ParamOrRef → Bool
  | .ref _ => true
  | .param .. => false

/-- True when some parameter entry of the list is a cross-reference. -/
def hasRefParam (l : List ParamOrRef) : Bool := l.any isRefParam

/-- Test for a cross-reference response entry. -/
def isRefResponse : String × RespOrRef → Bool
  | (_, .ref _) => true
  | _ => false

/-- True when some response entry of the list is a cross-reference. -/
def hasRefResponse (l : List (String × RespOrRef)) : Bool := l.any isRefResponse

/-- True when neither the parameter list nor the response map of the
operation contains a cross-reference entry. -/
def opNoRefs (o : OperationObject) : Bool :=
  !hasRefParam (o.parameters.getD []) && !hasRefResponse (o.responses.getD [])

/-- Test for an operation object entry value. -/
def PathItemValue.isOp : PathItemValue → Bool
  | .op _ => true
  | _ => false

/-- The operation entries of one path item in source order: the truthy
operation object values stored under keys other than parameters, paired
with the path and their key. -/
def pathOperations (p : String) : List (String × PathItemValue) →
    List (String × String × OperationObject)
  | [] => []
  | (m, PathItemValue.op o) :: rest =>
      if m = "parameters" then pathOperations p rest else (p, m, o) :: pathOperations p rest
  | _ :: rest => pathOperations p rest

/-- The operations of the whole document in source order.  This
definition follows the wording of the specification (one descriptor per
operation of the document, in source order) and is the measuring stick
against which parseEndpoints is compared. -/
def operationsInOrder : PathsObject → List (String × String × OperationObject)
  | [] => []
  | (p, item) :: rest => pathOperations p (item.getD []) ++ operationsInOrder rest

/-- True when no operation of the document carries a cross-reference
parameter or response. -/
def docNoRefs (paths : PathsObject) : Bool :=
  (operationsInOrder paths).all (fun q => opNoRefs q.2.2)

/-- True when the entry is one the parser treats as an operation slot or
skips: the parameters key, a falsy value, or an operation object. -/
def entryOpsOnly : String × PathItemValue → Bool
  | (m, v) => decide (m = "parameters") || v.isFalsy || v.isOp

/-- True when every truthy entry of every path item outside the
parameters key is an operation object. -/
def docOpsOnly (paths : PathsObject) : Bool :=
  paths.all (fun q => (q.2.getD []).all entryOpsOnly)

/-- Info block shared by the concrete documents below. -/
def demoInfo : SpecInfo := { title := "Demo", version := "1.0.0", description := none }

/-- A document with an empty paths object, hence zero operations. -/
def emptyPathsDoc : Document := { paths := some [], components := none, info := demoInfo }

/-- An operation whose parameter list contains a cross-reference. -/
def refParamOperation : OperationObject :=
  { emptyOperation with parameters := some [ParamOrRef.ref "#/components/parameters/Id"] }

/-- A document with a single operation carrying a cross-reference
parameter. -/
def refParamDoc : Document :=
  { paths := some [("/pets", some [("get", PathItemValue.op refParamOperation)])],
    components := none, info := demoInfo }

/-- The endpoint produced for a bare get operation on the path /pets. -/
def demoEndpointGet : ParsedEndpoint :=
  { path := "/pets", method := "GET", operationId := "getpets", summary := none,
    description := none, tags := ["default"], parameters := [], requestBody := none,
    responses := [] }

/-- A document whose single path item carries a summary entry next to a
get operation. -/
def summaryEntryDoc : Document :=
  { paths := some [("/pets", some [("summary", PathItemValue.str "Pet operations"),
      ("get", PathItemValue.op emptyOperation)])],
    components := none, info := demoInfo }

/-- An operation tagged pets. -/
def petsTagOperation : OperationObject := { emptyOperation with tags := some ["pets"] }

/-- A document with one tagged operation and no component schemas. -/
def petsDoc : Document :=
  { paths := some [("/pets", some [("get", PathItemValue.op petsTagOperation)])],
    components := none, info := demoInfo }

/-- An operation whose request body is a cross-reference. -/
def refBodyOperation : OperationObject :=
  { emptyOperation with requestBody := some (BodyOrRef.ref "#/components/requestBodies/Pet") }

/-- An operation with one query parameter whose schema is an array of
string, tripping the unbound zodType identifier of the route template at
render time. -/
def arrayParamOperation : OperationObject :=
  { emptyOperation with parameters := some [ParamOrRef.param "ids" "query" (some true)
      (some (OASchema.node (some "array") (OASchema.leaf (some "string"))))] }

/-- A document with one operation carrying an array typed query
parameter and no component schemas. -/
def arrayParamDoc : Document :=
  { paths := some [("/pets", some [("get", PathItemValue.op arrayParamOperation)])],
    components := none, info := demoInfo }

/-- The endpoint produced for the get operation of petsDoc. -/
def demoPetsEndpoint : ParsedEndpoint :=
  { path := "/pets", method := "GET", operationId := "getpets", summary := none,
    description := none, tags := ["pets"], parameters := [], requestBody := none,
    responses := [] }

/-- The parse result of petsDoc. -/
def demoParsedPets : ParsedOpenAPI :=
  { endpoints := [demoPetsEndpoint], schemas := [], info := demoInfo }

/-- Claim C8: the storage type helper maps string to a text column,
integer to an integer column, number to a real column, boolean to a
boolean mode integer column, and any other or missing type to a text
column; the mapping depends only on the type member, so mapping the same
type twice yields identical output. -/
theorem c8_drizzleType_table :
    (∀ s : OASchema, s.type = some "string" → drizzleType s = "text()") ∧
    (∀ s : OASchema, s.type = some "integer" → drizzleType s = "integer()") ∧
    (∀ s : OASchema, s.type = some "number" → drizzleType s = "real()") ∧
    (∀ s : OASchema, s.type = some "boolean" → drizzleType s = "integer(\x7b mode: \"boolean\" \x7d)") ∧
    (∀ s : OASchema, s.type = none → drizzleType s = "text()") ∧
    (∀ (s : OASchema) (t : String), s.type = some t → t ≠ "string" → t ≠ "integer" →
      t ≠ "number" → t ≠ "boolean" → drizzleType s = "text()") ∧
    (∀ s₁ s₂ : OASchema, s₁.type = s₂.type → drizzleType s₁ = drizzleType s₂) := by
  refine ⟨?_, ?_, ?_, ?_, ?_, ?_, ?_⟩
  · intro s h; simp [drizzleType, h]
  · intro s h; simp [drizzleType, h]
  · intro s h; simp [drizzleType, h]
  · intro s h; simp [drizzleType, h]
  · intro s h; simp [drizzleType, h]
  · intro s t h h1 h2 h3 h4; simp [drizzleType, h, h1, h2, h3, h4]
  · intro s₁ s₂ h; simp only [drizzleType, h]

/-- Witness for C8 at concrete property schemas. -/
theorem c8_drizzleType_table_witness :
    drizzleType (OASchema.leaf (some "string")) = "text()" ∧
    drizzleType (OASchema.leaf (some "boolean")) = "integer(\x7b mode: \"boolean\" \x7d)" ∧
    drizzleType (OASchema.leaf (some "date")) = "text()" ∧
    drizzleType (OASchema.leaf none) = "text()" :=
  ⟨c8_drizzleType_table.1 _ rfl,
   c8_drizzleType_table.2.2.2.1 _ rfl,
   c8_drizzleType_table.2.2.2.2.2.1 _ "date" rfl (by decide) (by decide) (by decide) (by decide),
   c8_drizzleType_table.2.2.2.2.1 _ rfl⟩

/-- A character list without uppercase letters is unchanged by the
character level body of the snakeCase helper. -/
theorem snakeChars_id_of_no_upper (l : List Char) (h : l.all (fun c => !c.isUpper) = true) :
    snakeChars l = l := by
  induction l with
  | nil => rfl
  | cons c cs ih =>
    simp only [List.all_cons, Bool.and_eq_true] at h
    have hc : c.isUpper = false := by simpa using h.1
    simp [snakeChars, snakeStep, hc, ih h.2]

/-- Claim C9: camelCase lower-cases only the first character and keeps
the rest, pascalCase upper-cases only the first character, snakeCase
inserts an underscore before every uppercase letter and lower-cases it
(stated through its action on single characters and on concatenations),
and a string without uppercase letters passes through snakeCase
unchanged. -/
theorem c9_case_helpers :
    (∀ (c : Char) (cs : List Char), camelCase (String.mk (c :: cs)) = String.mk (Char.toLower c :: cs)) ∧
    (∀ (c : Char) (cs : List Char), pascalCase (String.mk (c :: cs)) = String.mk (Char.toUpper c :: cs)) ∧
    (∀ l₁ l₂ : List Char, snakeChars (l₁ ++ l₂) = snakeChars l₁ ++ snakeChars l₂) ∧
    (∀ c : Char, c.isUpper = true → snakeChars [c] = ['_', Char.toLower c]) ∧
    (∀ c : Char, c.isUpper = false → snakeChars [c] = [c]) ∧
    (∀ s : String, s.toList.all (fun c => !c.isUpper) = true → snakeCase s = s) := by
  refine ⟨fun c cs => rfl, fun c cs => rfl, ?_, ?_, ?_, ?_⟩
  · intro l₁ l₂
    induction l₁ with
    | nil => rfl
    | cons c cs ih => simp [snakeChars, ih]
  · intro c h; simp [snakeChars, snakeStep, h]
  · intro c h; simp [snakeChars, snakeStep, h]
  · intro s h
    unfold snakeCase
    rw [snakeChars_id_of_no_upper _ h]
    cases s
    rfl

/-- Witness for C9: a pascal case name gains underscores, while names
already in snake or kebab case pass through snakeCase unchanged. -/
theorem c9_case_helpers_witness :
    camelCase "UserName" = "userName" ∧
    snakeCase "kebab-case" = "kebab-case" ∧
    snakeCase "snake_case" = "snake_case" ∧
    snakeChars ['N'] = ['_', 'n'] := by
  refine ⟨rfl, ?_, ?_, ?_⟩
  · exact c9_case_helpers.2.2.2.2.2 "kebab-case" (by decide)
  · exact c9_case_helpers.2.2.2.2.2 "snake_case" (by decide)
  · exact c9_case_helpers.2.2.2.1 'N' (by decide)

/-- Claim C3 (code bug): on an array of string parameter schema the
zodType helper does not return the array-of-string validator the claim
and the source comment intend; its array branch names the identifier
zodType, which is unbound because the helper is registered as an
anonymous function, so evaluation raises a ReferenceError, modelled here
as an error result.  The nested mapping of the string items schema is
never reached. -/
theorem c3_zodType_array_fails :
    zodType (some (OASchema.node (some "array") (OASchema.leaf (some "string"))))
      = Except.error "ReferenceError: zodType is not defined" := rfl

/-- Claim C2 (counterexample): an operation without a declared
operationId on the path /pets under the key get receives the identifier
getpets, while the claim demands the upper-cased method concatenated
with the stripped path, namely GETpets. -/
theorem c2_operationId_counterexample :
    (parseEndpoints [("/pets", some [("get", PathItemValue.op emptyOperation)])]).map
        (List.map ParsedEndpoint.operationId) = Except.ok ["getpets"] ∧
    jsToUpperCase "get" ++ String.mk ("/pets".toList.filter isAlnumChar) = "GETpets" ∧
    ("getpets" : String) ≠ "GETpets" := by
  refine ⟨rfl, by decide, by decide⟩

/-- Claim C2 amended: an operation with no declared operationId receives
the identifier generateOperationId method path, the method as written in
the document (the lower-case entry key, not upper-cased) concatenated
with the path stripped of all non-alphanumeric characters. -/
theorem c2_operationId_generated (p m : String) (v : PathItemValue) (e : ParsedEndpoint)
    (hid : v.asOp.operationId = none)
    (hok : parseOperationEntry p m v = Except.ok (some e)) :
    e.operationId = generateOperationId m p := by
  unfold parseOperationEntry at hok
  split at hok
  · simp at hok
  · split at hok
    · simp at hok
    · split at hok
      · simp at hok
      · simp only [Except.ok.injEq, Option.some.injEq] at hok
        rw [← hok]
        simp [hid]

/-- Witness for the amended C2 at the concrete operation entry get /pets
with no declared operationId. -/
theorem c2_operationId_generated_witness :
    demoEndpointGet.operationId = generateOperationId "get" "/pets" :=
  c2_operationId_generated "/pets" "get" (PathItemValue.op emptyOperation) demoEndpointGet rfl rfl

/-- A parameter list containing a cross-reference entry fails
parseParameters. -/
theorem parseParameters_fails_of_ref (l : List ParamOrRef) (h : hasRefParam l = true) :
    (parseParameters l).isOk = false := by
  induction l with
  | nil => simp [hasRefParam] at h
  | cons p rest ih =>
    cases p with
    | ref r => rfl
    | param n pin req sch =>
      have hr : hasRefParam rest = true := by simpa [hasRefParam, isRefParam] using h
      have hrest := ih hr
      cases hp : parseParameters rest with
      | error e => simp [parseParameters, hp, Except.isOk, Except.toBool]
      | ok r => rw [hp] at hrest; simp [Except.isOk, Except.toBool] at hrest

/-- A parameter list without cross-reference entries parses
successfully. -/
theorem parseParameters_ok_of_no_ref (l : List ParamOrRef) (h : hasRefParam l = false) :
    ∃ r, parseParameters l = Except.ok r := by
  induction l with
  | nil => exact ⟨[], rfl⟩
  | cons p rest ih =>
    cases p with
    | ref r => simp [hasRefParam, isRefParam] at h
    | param n pin req sch =>
      have hr : hasRefParam rest = false := by simpa [hasRefParam, isRefParam] using h
      obtain ⟨r, hrw⟩ := ih hr
      exact ⟨{ name := n, paramIn := pin, required := req.getD false, schema := sch } :: r,
        by simp [parseParameters, hrw]⟩

/-- A response map containing a cross-reference entry fails
parseResponses. -/
theorem parseResponses_fails_of_ref (l : List (String × RespOrRef)) (h : hasRefResponse l = true) :
    (parseResponses l).isOk = false := by
  induction l with
  | nil => simp [hasRefResponse] at h
  | cons p rest ih =>
    obtain ⟨code, r⟩ := p
    cases r with
    | ref s => rfl
    | response d content =>
      have hr : hasRefResponse rest = true := by simpa [hasRefResponse, isRefResponse] using h
      have hrest := ih hr
      cases hp : parseResponses rest with
      | error e => simp [parseResponses, hp, Except.isOk, Except.toBool]
      | ok l2 => rw [hp] at hrest; simp [Except.isOk, Except.toBool] at hrest

/-- A response map without cross-reference entries parses
successfully. -/
theorem parseResponses_ok_of_no_ref (l : List (String × RespOrRef)) (h : hasRefResponse l = false) :
    ∃ r, parseResponses l = Except.ok r := by
  induction l with
  | nil => exact ⟨[], rfl⟩
  | cons p rest ih =>
    obtain ⟨code, r⟩ := p
    cases r with
    | ref s => simp [hasRefResponse, isRefResponse] at h
    | response d content =>
      have hr : hasRefResponse rest = false := by simpa [hasRefResponse, isRefResponse] using h
      obtain ⟨l2, hrw⟩ := ih hr
      exact ⟨{ statusCode := code, description := d, content := content } :: l2,
        by simp [parseResponses, hrw]⟩

/-- An operation entry whose parameter list or response map contains a
cross-reference fails parseOperationEntry. -/
theorem parseOperationEntry_fails_of_ref (p m : String) (v : PathItemValue)
    (hm : ¬(m = "parameters" ∨ v.isFalsy = true))
    (h : hasRefParam (v.asOp.parameters.getD []) = true ∨
         hasRefResponse (v.asOp.responses.getD []) = true) :
    (parseOperationEntry p m v).isOk = false := by
  unfold parseOperationEntry
  rw [if_neg hm]
  cases hp : parseParameters (v.asOp.parameters.getD []) with
  | error e => simp [Except.isOk, Except.toBool]
  | ok params =>
    cases h with
    | inl h1 =>
      have := parseParameters_fails_of_ref _ h1
      rw [hp] at this
      simp [Except.isOk, Except.toBool] at this
    | inr h2 =>
      cases hr : parseResponses (v.asOp.responses.getD []) with
      | error e => simp [Except.isOk, Except.toBool]
      | ok resps =>
        have := parseResponses_fails_of_ref _ h2
        rw [hr] at this
        simp [Except.isOk, Except.toBool] at this

/-- A failing entry of a path item fails the whole parsePathItem call. -/
theorem parsePathItem_fails_of_entry (p : String) (entries : List (String × PathItemValue))
    (m : String) (v : PathItemValue) (hmem : (m, v) ∈ entries)
    (hfail : (parseOperationEntry p m v).isOk = false) :
    (parsePathItem p entries).isOk = false := by
  induction entries with
  | nil => simp at hmem
  | cons hd rest ih =>
    obtain ⟨m0, v0⟩ := hd
    rcases List.mem_cons.mp hmem with heq | hmem2
    · injection heq with h1 h2
      subst h1
      subst h2
      unfold parsePathItem
      cases he : parseOperationEntry p m v with
      | error e => simp [Except.isOk, Except.toBool]
      | ok eOpt => rw [he] at hfail; simp [Except.isOk, Except.toBool] at hfail
    · unfold parsePathItem
      cases he : parseOperationEntry p m0 v0 with
      | error e => simp [Except.isOk, Except.toBool]
      | ok eOpt =>
        cases hrest : parsePathItem p rest with
        | error e => cases eOpt <;> simp [Except.isOk, Except.toBool]
        | ok l =>
          have := ih hmem2
          rw [hrest] at this
          simp [Except.isOk, Except.toBool] at this

/-- A failing path item fails the whole parseEndpoints call. -/
theorem parseEndpoints_fails_of_item (paths : PathsObject) (p : String)
    (entries : List (String × PathItemValue)) (hmem : (p, some entries) ∈ paths)
    (hfail : (parsePathItem p entries).isOk = false) :
    (parseEndpoints paths).isOk = false := by
  induction paths with
  | nil => simp at hmem
  | cons hd rest ih =>
    obtain ⟨p0, item0⟩ := hd
    rcases List.mem_cons.mp hmem with heq | hmem2
    · injection heq with h1 h2
      subst h1
      subst h2
      unfold parseEndpoints
      cases hi : parsePathsEntry p (some entries) with
      | error e => simp [Except.isOk, Except.toBool]
      | ok l =>
        have hi2 : parsePathItem p entries = Except.ok l := hi
        rw [hi2] at hfail
        simp [Except.isOk, Except.toBool] at hfail
    · unfold parseEndpoints
      cases hi : parsePathsEntry p0 item0 with
      | error e => simp [Except.isOk, Except.toBool]
      | ok l =>
        cases hrest : parseEndpoints rest with
        | error e => simp [Except.isOk, Except.toBool]
        | ok l2 =>
          have := ih hmem2
          rw [hrest] at this
          simp [Except.isOk, Except.toBool] at this

/-- Claim C4: normalization fails for the whole document when any
parameter or any response of any operation is a cross-reference, while a
request body that is a cross-reference does not fail: the operation is
normalized with requestBody undefined, provided its parameters and
responses are reference free. -/
theorem c4_reference_handling :
    (∀ (paths : PathsObject) (p : String) (entries : List (String × PathItemValue))
       (m : String) (v : PathItemValue),
       (p, some entries) ∈ paths → (m, v) ∈ entries →
       ¬(m = "parameters" ∨ v.isFalsy = true) →
       (hasRefParam (v.asOp.parameters.getD []) = true ∨
        hasRefResponse (v.asOp.responses.getD []) = true) →
       (parseEndpoints paths).isOk = false) ∧
    (∀ (p m : String) (v : PathItemValue) (r : String),
       ¬(m = "parameters" ∨ v.isFalsy = true) →
       v.asOp.requestBody = some (BodyOrRef.ref r) →
       hasRefParam (v.asOp.parameters.getD []) = false →
       hasRefResponse (v.asOp.responses.getD []) = false →
       ∃ e, parseOperationEntry p m v = Except.ok (some e) ∧ e.requestBody = none) := by
  constructor
  · intro paths p entries m v hip him hm h
    exact parseEndpoints_fails_of_item paths p entries hip
      (parsePathItem_fails_of_entry p entries m v him
        (parseOperationEntry_fails_of_ref p m v hm h))
  · intro p m v r hm hb hpar hresp
    obtain ⟨params, hp⟩ := parseParameters_ok_of_no_ref _ hpar
    obtain ⟨resps, hr⟩ := parseResponses_ok_of_no_ref _ hresp
    cases hrun : parseOperationEntry p m v with
    | error e =>
      exfalso
      unfold parseOperationEntry at hrun
      rw [if_neg hm, hp, hr] at hrun
      simp at hrun
    | ok eOpt =>
      cases eOpt with
      | none =>
        exfalso
        unfold parseOperationEntry at hrun
        rw [if_neg hm, hp, hr] at hrun
        simp at hrun
      | some e =>
        refine ⟨e, rfl, ?_⟩
        unfold parseOperationEntry at hrun
        rw [if_neg hm, hp, hr] at hrun
        simp only [Except.ok.injEq, Option.some.injEq] at hrun
        rw [← hrun]
        simp [parseRequestBody, hb]

/-- Witness for C4: the document with a cross-reference parameter fails
to parse, and an operation with a cross-reference request body parses
with requestBody undefined. -/
theorem c4_reference_handling_witness :
    (parseEndpoints (refParamDoc.paths.getD [])).isOk = false ∧
    (∃ e, parseOperationEntry "/pets" "post" (PathItemValue.op refBodyOperation)
        = Except.ok (some e) ∧ e.requestBody = none) :=
  ⟨c4_reference_handling.1 (refParamDoc.paths.getD []) "/pets"
      [("get", PathItemValue.op refParamOperation)] "get" (PathItemValue.op refParamOperation)
      (by decide) (by decide) (by decide) (Or.inl (by decide)),
   c4_reference_handling.2 "/pets" "post" (PathItemValue.op refBodyOperation)
      "#/components/requestBodies/Pet" (by decide) (by decide) (by decide) (by decide)⟩

/-- A reference free operation object entry under a key other than
parameters is normalized into one endpoint with the entry path and the
upper-cased entry key. -/
theorem parseOperationEntry_op_ok (p m : String) (o : OperationObject)
    (hm : m ≠ "parameters") (hno : opNoRefs o = true) :
    ∃ e, parseOperationEntry p m (PathItemValue.op o) = Except.ok (some e) ∧
      e.path = p ∧ e.method = jsToUpperCase m := by
  have hm2 : ¬(m = "parameters" ∨ (PathItemValue.op o).isFalsy = true) := by
    simp [PathItemValue.isFalsy, hm]
  obtain ⟨hpar, hresp⟩ : hasRefParam (o.parameters.getD []) = false ∧
      hasRefResponse (o.responses.getD []) = false := by
    constructor
    · cases hx : hasRefParam (o.parameters.getD []) with
      | false => rfl
      | true => rw [opNoRefs, hx] at hno; simp at hno
    · cases hx : hasRefResponse (o.responses.getD []) with
      | false => rfl
      | true => rw [opNoRefs, hx] at hno; simp at hno
  obtain ⟨params, hp⟩ := parseParameters_ok_of_no_ref _ hpar
  obtain ⟨resps, hr⟩ := parseResponses_ok_of_no_ref _ hresp
  cases hrun : parseOperationEntry p m (PathItemValue.op o) with
  | error e =>
    exfalso
    unfold parseOperationEntry at hrun
    rw [if_neg hm2] at hrun
    simp only [PathItemValue.asOp] at hrun
    rw [hp, hr] at hrun
    simp at hrun
  | ok eOpt =>
    cases eOpt with
    | none =>
      exfalso
      unfold parseOperationEntry at hrun
      rw [if_neg hm2] at hrun
      simp only [PathItemValue.asOp] at hrun
      rw [hp, hr] at hrun
      simp at hrun
    | some e =>
      refine ⟨e, rfl, ?_, ?_⟩ <;>
      · unfold parseOperationEntry at hrun
        rw [if_neg hm2] at hrun
        simp only [PathItemValue.asOp] at hrun
        rw [hp, hr] at hrun
        simp only [Except.ok.injEq, Option.some.injEq] at hrun
        rw [← hrun]

/-- An entry keyed parameters or holding a falsy value is skipped by the
inner loop of parseEndpoints. -/
theorem parseOperationEntry_skip (p m : String) (v : PathItemValue)
    (h : m = "parameters" ∨ v.isFalsy = true) :
    parseOperationEntry p m v = Except.ok none := by
  unfold parseOperationEntry
  rw [if_pos h]

/-- Over a path item whose truthy non parameters entries are all
reference free operation objects, the inner loop succeeds and yields one
endpoint per operation entry, in source order, carrying the entry path
and the upper-cased entry key. -/
theorem parsePathItem_ok (p : String) (entries : List (String × PathItemValue))
    (hops : entries.all entryOpsOnly = true)
    (hrefs : (pathOperations p entries).all (fun q => opNoRefs q.2.2) = true) :
    ∃ l, parsePathItem p entries = Except.ok l ∧
      l.map (fun e => (e.path, e.method)) =
        (pathOperations p entries).map (fun q => (q.1, jsToUpperCase q.2.1)) := by
  induction entries with
  | nil => exact ⟨[], rfl, rfl⟩
  | cons hd rest ih =>
    obtain ⟨m, v⟩ := hd
    simp only [List.all_cons, Bool.and_eq_true] at hops
    by_cases hm : m = "parameters"
    · subst hm
      have hpo : pathOperations p (("parameters", v) :: rest) = pathOperations p rest := by
        cases v <;> simp [pathOperations]
      rw [hpo] at hrefs
      obtain ⟨l, h1, h2⟩ := ih hops.2 hrefs
      refine ⟨l, ?_, by rw [hpo]; exact h2⟩
      unfold parsePathItem
      rw [parseOperationEntry_skip p "parameters" v (Or.inl rfl), h1]
    · cases v with
      | null =>
        have hpo : pathOperations p ((m, PathItemValue.null) :: rest) = pathOperations p rest := by
          simp [pathOperations]
        rw [hpo] at hrefs
        obtain ⟨l, h1, h2⟩ := ih hops.2 hrefs
        refine ⟨l, ?_, by rw [hpo]; exact h2⟩
        unfold parsePathItem
        rw [parseOperationEntry_skip p m PathItemValue.null (Or.inr rfl), h1]
      | str s =>
        have hs : s = "" := by
          have h1 := hops.1
          simp [entryOpsOnly, hm, PathItemValue.isFalsy, PathItemValue.isOp] at h1
          exact h1
        subst hs
        have hpo : pathOperations p ((m, PathItemValue.str "") :: rest) = pathOperations p rest := by
          simp [pathOperations]
        rw [hpo] at hrefs
        obtain ⟨l, h1, h2⟩ := ih hops.2 hrefs
        refine ⟨l, ?_, by rw [hpo]; exact h2⟩
        unfold parsePathItem
        rw [parseOperationEntry_skip p m (PathItemValue.str "") (Or.inr rfl), h1]
      | op o =>
        have hpo : pathOperations p ((m, PathItemValue.op o) :: rest)
            = (p, m, o) :: pathOperations p rest := by
          simp [pathOperations, hm]
        rw [hpo] at hrefs
        simp only [List.all_cons, Bool.and_eq_true] at hrefs
        obtain ⟨e, he, hepath, hemethod⟩ := parseOperationEntry_op_ok p m o hm hrefs.1
        obtain ⟨l, h1, h2⟩ := ih hops.2 hrefs.2
        refine ⟨e :: l, ?_, ?_⟩
        · unfold parsePathItem
          rw [he, h1]
        · rw [hpo]
          simp [hepath, hemethod, h2]

/-- Over a document whose truthy non parameters entries are all
reference free operation objects, parseEndpoints succeeds and yields one
endpoint per operation of the document, in source order. -/
theorem parseEndpoints_ok (paths : PathsObject)
    (hops : docOpsOnly paths = true) (hrefs : docNoRefs paths = true) :
    ∃ l, parseEndpoints paths = Except.ok l ∧
      l.map (fun e => (e.path, e.method)) =
        (operationsInOrder paths).map (fun q => (q.1, jsToUpperCase q.2.1)) := by
  induction paths with
  | nil => exact ⟨[], rfl, rfl⟩
  | cons hd rest ih =>
    obtain ⟨p, item⟩ := hd
    simp only [docOpsOnly, List.all_cons, Bool.and_eq_true] at hops
    have hoo : operationsInOrder ((p, item) :: rest)
        = pathOperations p (item.getD []) ++ operationsInOrder rest := rfl
    rw [docNoRefs, hoo, List.all_append, Bool.and_eq_true] at hrefs
    obtain ⟨lrest, hr1, hr2⟩ := ih (by simpa [docOpsOnly] using hops.2) (by rw [docNoRefs]; exact hrefs.2)
    obtain ⟨litem, hi1, hi2⟩ := parsePathItem_ok p (item.getD []) hops.1 hrefs.1
    have hentry : parsePathsEntry p item = Except.ok litem := by
      cases item with
      | none =>
        have hi1b : (Except.ok ([] : List ParsedEndpoint) : Except String (List ParsedEndpoint))
            = Except.ok litem := hi1
        have hnil : litem = [] := by simpa using hi1b.symm
        rw [hnil]
        rfl
      | some entries => exact hi1
    refine ⟨litem ++ lrest, ?_, ?_⟩
    · unfold parseEndpoints
      rw [hentry, hr1]
    · rw [hoo, List.map_append, List.map_append, hr2]
      cases item with
      | none =>
        have hi1b : (Except.ok ([] : List ParsedEndpoint) : Except String (List ParsedEndpoint))
            = Except.ok litem := hi1
        have hnil : litem = [] := by simpa using hi1b.symm
        subst hnil
        rfl
      | some entries => rw [hi2]

/-- Claim C6 (counterexample): a document whose single path item carries
a truthy summary entry next to one get operation has one operation but
normalizes to two endpoint descriptors, because the source skips only
the parameters key when walking a path item. -/
theorem c6_descriptor_count_counterexample :
    (operationsInOrder (summaryEntryDoc.paths.getD [])).length = 1 ∧
    (parseEndpoints (summaryEntryDoc.paths.getD [])).map List.length = Except.ok 2 := ⟨rfl, rfl⟩

/-- Claim C6 amended: for documents with at least one operation, no
cross-reference parameters or responses, and whose truthy path item
entries outside the parameters key are all operation objects,
normalization yields exactly one endpoint descriptor per operation, in
source document order (each descriptor carrying the path and upper-cased
method of its operation). -/
theorem c6_one_descriptor_per_operation (paths : PathsObject)
    (hne : operationsInOrder paths ≠ [])
    (hops : docOpsOnly paths = true) (hrefs : docNoRefs paths = true) :
    ∃ l, parseEndpoints paths = Except.ok l ∧
      l.map (fun e => (e.path, e.method)) =
        (operationsInOrder paths).map (fun q => (q.1, jsToUpperCase q.2.1)) :=
  parseEndpoints_ok paths hops hrefs

/-- Witness for the amended C6 on the one-operation pets document. -/
theorem c6_one_descriptor_per_operation_witness :
    (parseEndpoints (petsDoc.paths.getD [])).map (List.map (fun e => (e.path, e.method)))
      = Except.ok [("/pets", "GET")] := by
  obtain ⟨l, h1, h2⟩ := c6_one_descriptor_per_operation (petsDoc.paths.getD [])
    (by decide) (by decide) (by decide)
  rw [h1]
  simp only [Except.map, h2]
  rfl

/-- Reading a lookup result when find? succeeds. -/
theorem findGroup_eq_of_find?_some (t : String) (gs : List (String × List ParsedEndpoint))
    (g : String × List ParsedEndpoint) (h : gs.find? (fun g => g.1 = t) = some g) :
    findGroup t gs = g.2 := by
  unfold findGroup
  rw [h]

/-- Reading a lookup result when find? fails. -/
theorem findGroup_eq_of_find?_none (t : String) (gs : List (String × List ParsedEndpoint))
    (h : gs.find? (fun g => g.1 = t) = none) :
    findGroup t gs = [] := by
  unfold findGroup
  rw [h]

/-- The key update performed by one grouping step preserves the key of
every group, so find? commutes with the update map. -/
theorem find?_map_update (t tag : String) (e : ParsedEndpoint)
    (acc : List (String × List ParsedEndpoint)) :
    (acc.map (fun g => if g.1 = tag then (g.1, g.2 ++ [e]) else g)).find? (fun g => g.1 = t)
      = (acc.find? (fun g => g.1 = t)).map (fun g => if g.1 = tag then (g.1, g.2 ++ [e]) else g) := by
  induction acc with
  | nil => rfl
  | cons hd rest ih =>
    have hkey : (if hd.1 = tag then (hd.1, hd.2 ++ [e]) else hd).1 = hd.1 := by
      by_cases h : hd.1 = tag <;> simp [h]
    by_cases hp : hd.1 = t
    · rw [List.map_cons,
        List.find?_cons_of_pos _ (by simp only [hkey, decide_eq_true_eq]; exact hp),
        List.find?_cons_of_pos _ (by simp only [decide_eq_true_eq]; exact hp)]
      rfl
    · rw [List.map_cons,
        List.find?_cons_of_neg _ (by simp only [hkey, decide_eq_true_eq]; exact hp),
        List.find?_cons_of_neg _ (by simp only [decide_eq_true_eq]; exact hp)]
      exact ih

/-- Appending a fresh singleton group does not disturb lookups of other
keys and creates the new key. -/
theorem findGroup_append_single (t tag : String) (e : ParsedEndpoint)
    (acc : List (String × List ParsedEndpoint))
    (h : acc.any (fun g => g.1 = tag) = false) :
    findGroup t (acc ++ [(tag, [e])]) = findGroup t acc ++ (if tag = t then [e] else []) := by
  induction acc with
  | nil =>
    by_cases ht : tag = t
    · simp [findGroup, List.find?, ht]
    · simp [findGroup, List.find?, ht]
  | cons hd rest ih =>
    simp only [List.any_cons, Bool.or_eq_false_iff] at h
    by_cases hp : hd.1 = t
    · rw [List.cons_append]
      unfold findGroup
      rw [List.find?_cons_of_pos _ (by simp [hp]), List.find?_cons_of_pos _ (by simp [hp])]
      have htag : ¬ tag = t := by
        intro hq
        subst hq
        have := h.1
        simp [hp] at this
      rw [if_neg htag]
      simp
    · rw [List.cons_append]
      unfold findGroup
      rw [List.find?_cons_of_neg _ (by simp [hp]), List.find?_cons_of_neg _ (by simp [hp])]
      exact ih h.2

/-- One grouping step appends the endpoint to exactly the group keyed by
its first tag and leaves every other group unchanged. -/
theorem findGroup_addToGroups (acc : List (String × List ParsedEndpoint)) (e : ParsedEndpoint)
    (t : String) :
    findGroup t (addToGroups acc e) = findGroup t acc ++ (if firstTag e = t then [e] else []) := by
  unfold addToGroups
  by_cases hmem : acc.any (fun g => g.1 = firstTag e) = true
  · rw [if_pos hmem]
    have hmap := find?_map_update t (firstTag e) e acc
    cases hf : acc.find? (fun g => g.1 = t) with
    | none =>
      rw [hf] at hmap
      rw [findGroup_eq_of_find?_none t _ (by rw [hmap]; rfl),
        findGroup_eq_of_find?_none t acc hf]
      by_cases hft : firstTag e = t
      · exfalso
        subst hft
        rw [List.any_eq_true] at hmem
        obtain ⟨g, hg, hgt⟩ := hmem
        rw [List.find?_eq_none] at hf
        exact absurd hgt (by simpa using hf g hg)
      · rw [if_neg hft]
        rfl
    | some g =>
      have hgt : g.1 = t := by
        have := List.find?_some hf
        simpa using this
      rw [hf] at hmap
      rw [findGroup_eq_of_find?_some t _ _ (by rw [hmap]; rfl),
        findGroup_eq_of_find?_some t acc g hf]
      by_cases hft : firstTag e = t
      · rw [if_pos hft]
        show (if g.1 = firstTag e then (g.1, g.2 ++ [e]) else g).2 = g.2 ++ [e]
        rw [if_pos (hgt.trans hft.symm)]
      · rw [if_neg hft]
        show (if g.1 = firstTag e then (g.1, g.2 ++ [e]) else g).2 = g.2 ++ []
        rw [if_neg (fun hq => hft (hq.symm.trans hgt))]
        simp
  · rw [if_neg hmem]
    rw [findGroup_append_single t (firstTag e) e acc (Bool.eq_false_iff.mpr hmem)]

/-- Folding the grouping step over an endpoint list extends each lookup
by exactly the input endpoints whose first tag matches, in input
order. -/
theorem findGroup_foldl (l : List ParsedEndpoint) :
    ∀ (acc : List (String × List ParsedEndpoint)) (t : String),
    findGroup t (l.foldl addToGroups acc)
      = findGroup t acc ++ l.filter (fun e => firstTag e = t) := by
  induction l with
  | nil => intro acc t; simp
  | cons e rest ih =>
    intro acc t
    simp only [List.foldl_cons]
    rw [ih, findGroup_addToGroups, List.append_assoc]
    congr 1
    by_cases h : firstTag e = t
    · simp [List.filter_cons, h]
    · simp [List.filter_cons, h]

/-- One grouping step preserves the key list when the key is present and
appends it at the end when it is new. -/
theorem keys_addToGroups (acc : List (String × List ParsedEndpoint)) (e : ParsedEndpoint) :
    (addToGroups acc e).map Prod.fst
      = if acc.any (fun g => g.1 = firstTag e) then acc.map Prod.fst
        else acc.map Prod.fst ++ [firstTag e] := by
  unfold addToGroups
  by_cases h : acc.any (fun g => g.1 = firstTag e) = true
  · rw [if_pos h, if_pos h, List.map_map]
    congr 1
    funext g
    by_cases hg : g.1 = firstTag e <;> simp [hg]
  · rw [if_neg h, if_neg h]
    simp

/-- The key list of the grouping result has no duplicates. -/
theorem keys_nodup_foldl (l : List ParsedEndpoint) :
    ∀ acc : List (String × List ParsedEndpoint),
    (acc.map Prod.fst).Nodup → ((l.foldl addToGroups acc).map Prod.fst).Nodup := by
  induction l with
  | nil => intro acc h; simpa
  | cons e rest ih =>
    intro acc h
    simp only [List.foldl_cons]
    apply ih
    rw [keys_addToGroups]
    by_cases hmem : acc.any (fun g => g.1 = firstTag e) = true
    · rw [if_pos hmem]
      exact h
    · rw [if_neg hmem]
      refine List.Nodup.append h (List.nodup_singleton _) ?_
      intro a ha hb
      simp only [List.mem_singleton] at hb
      subst hb
      simp only [List.mem_map] at ha
      obtain ⟨g, hg, hgt⟩ := ha
      exact hmem (List.any_eq_true.mpr ⟨g, hg, by simpa using hgt⟩)

/-- Claim C7: grouping by tag keys each endpoint by its first tag with
the default fallback, creates one group per distinct key, the content of
each group equals the input filtered to that key in input order (stable,
no re-sorting), and every endpoint lands in the group of its first
tag. -/
theorem c7_grouping (l : List ParsedEndpoint) :
    ((getEndpointsByTag l).map Prod.fst).Nodup ∧
    (∀ t, findGroup t (getEndpointsByTag l) = l.filter (fun e => firstTag e = t)) ∧
    (∀ e ∈ l, e ∈ findGroup (firstTag e) (getEndpointsByTag l)) := by
  refine ⟨keys_nodup_foldl l [] (by simp), ?_, ?_⟩
  · intro t
    have := findGroup_foldl l [] t
    simpa [findGroup] using this
  · intro e he
    have := findGroup_foldl l [] (firstTag e)
    rw [getEndpointsByTag, this]
    simp only [findGroup, List.find?, List.nil_append]
    rw [List.mem_filter]
    exact ⟨he, by simp⟩

/-- Witness for C7 on a concrete endpoint list. -/
theorem c7_grouping_witness :
    findGroup "default" (getEndpointsByTag [demoEndpointGet]) = [demoEndpointGet] ∧
    ((getEndpointsByTag [demoEndpointGet]).map Prod.fst).Nodup ∧
    demoEndpointGet ∈ findGroup (firstTag demoEndpointGet) (getEndpointsByTag [demoEndpointGet]) := by
  refine ⟨?_, (c7_grouping [demoEndpointGet]).1, (c7_grouping [demoEndpointGet]).2.2 demoEndpointGet (by simp)⟩
  rw [(c7_grouping [demoEndpointGet]).2.1 "default"]
  rfl

/-- Claim C1 (code bug): a document with zero paths normalizes to an
empty endpoint list, yet the generation run succeeds and writes the
scaffold files instead of failing.  The source guards the template walk
with a comparison of the parsed endpoints member against undefined, but
that member is always a defined array, so the no-endpoints branch is
unreachable and an empty endpoint list is treated as a success. -/
theorem c1_zero_paths_run_succeeds :
    (parseOpenAPISpec emptyPathsDoc).map (fun s => s.endpoints) = Except.ok [] ∧
    runAction "app" false (some { fileExists := true, doc := emptyPathsDoc }) ["package.json"]
      = ([FsEvent.normalize, FsEvent.mkdirTarget, FsEvent.write (OutPath.scaffold "package.json")],
         none) :=
  ⟨rfl, rfl⟩

/-- Claim C5: a run against an existing target directory fails with an
empty effect trace (in particular before the Normalizer is invoked); a
run whose normalization fails performs no write; and every trace that
contains a write starts with the Normalizer invocation. -/
theorem c5_no_write_before_normalize :
    (∀ (appName : String) (spec : Option SpecFile) (templates : List String),
       (runAction appName true spec templates).1 = [] ∧
       (runAction appName true spec templates).2 ≠ none) ∧
    (∀ (appName : String) (targetExists : Bool) (sf : SpecFile) (templates : List String),
       (parseOpenAPISpec sf.doc).isOk = false →
       writesOf (runAction appName targetExists (some sf) templates).1 = []) ∧
    (∀ (appName : String) (targetExists : Bool) (spec : Option SpecFile) (templates : List String),
       writesOf (runAction appName targetExists spec templates).1 ≠ [] →
       ∃ rest, (runAction appName targetExists spec templates).1 = FsEvent.normalize :: rest) := by
  refine ⟨?_, ?_, ?_⟩
  · intro appName spec templates
    cases hv : validateAppName appName with
    | some e => constructor <;> simp [runAction, hv]
    | none => constructor <;> simp [runAction, hv]
  · intro appName targetExists sf templates hfail
    cases hv : validateAppName appName with
    | some e => simp [runAction, hv, writesOf]
    | none =>
      cases targetExists with
      | true => simp [runAction, hv, writesOf]
      | false =>
        cases hf : sf.fileExists with
        | false => simp [runAction, hv, hf, writesOf]
        | true =>
          cases hp : parseOpenAPISpec sf.doc with
          | error e => simp [runAction, hv, hf, hp, writesOf]
          | ok parsed => rw [hp] at hfail; simp [Except.isOk, Except.toBool] at hfail
  · intro appName targetExists spec templates hne
    cases hv : validateAppName appName with
    | some e => exact absurd (by simp [runAction, hv, writesOf]) hne
    | none =>
      cases targetExists with
      | true => exact absurd (by simp [runAction, hv, writesOf]) hne
      | false =>
        cases spec with
        | none => exact absurd (by simp [runAction, hv, writesOf]) hne
        | some sf =>
          cases hf : sf.fileExists with
          | false => exact absurd (by simp [runAction, hv, hf, writesOf]) hne
          | true =>
            cases hp : parseOpenAPISpec sf.doc with
            | error e => exact absurd (by simp [runAction, hv, hf, hp, writesOf]) hne
            | ok parsed =>
              cases hro : (generateRoutesEvents parsed.endpoints).2 with
              | true =>
                have htr : (runAction appName false (some sf) templates).1
                    = FsEvent.normalize :: FsEvent.mkdirTarget ::
                      (templates.map (fun n => FsEvent.write (OutPath.scaffold n))
                        ++ (generateRoutesEvents parsed.endpoints).1) := by
                  simp [runAction, hv, hf, hp, hro]
                exact ⟨_, htr⟩
              | false =>
                have htr : (runAction appName false (some sf) templates).1
                    = FsEvent.normalize :: FsEvent.mkdirTarget ::
                      (templates.map (fun n => FsEvent.write (OutPath.scaffold n))
                        ++ (generateRoutesEvents parsed.endpoints).1
                        ++ generateHandlersEvents parsed.endpoints
                        ++ generateSchemaEvents parsed.schemas) := by
                  simp [runAction, hv, hf, hp, hro]
                exact ⟨_, htr⟩

/-- Witness for C5: an existing target stops the run with an empty
trace, a failing parse writes nothing, and a successful run begins with
the Normalizer invocation. -/
theorem c5_no_write_before_normalize_witness :
    ((runAction "app" true (some { fileExists := true, doc := emptyPathsDoc }) ["a"]).1 = [] ∧
     (runAction "app" true (some { fileExists := true, doc := emptyPathsDoc }) ["a"]).2 ≠ none) ∧
    writesOf (runAction "app" false (some { fileExists := true, doc := refParamDoc }) ["a"]).1 = [] ∧
    (∃ rest, (runAction "app" false (some { fileExists := true, doc := emptyPathsDoc }) ["b"]).1
        = FsEvent.normalize :: rest) :=
  ⟨c5_no_write_before_normalize.1 "app" (some { fileExists := true, doc := emptyPathsDoc }) ["a"],
   c5_no_write_before_normalize.2.1 "app" false { fileExists := true, doc := refParamDoc } ["a"] rfl,
   c5_no_write_before_normalize.2.2 "app" false
     (some { fileExists := true, doc := emptyPathsDoc }) ["b"] (by decide)⟩

/-- Every group of the grouping result whose member list came from the
input has a key reached by some input endpoint. -/
theorem exists_group_of_mem (l : List ParsedEndpoint) (e : ParsedEndpoint) (he : e ∈ l) :
    ∃ g ∈ getEndpointsByTag l, g.1 = firstTag e := by
  cases hf : (getEndpointsByTag l).find? (fun g => g.1 = firstTag e) with
  | none =>
    exfalso
    have hnone : findGroup (firstTag e) (getEndpointsByTag l) = [] :=
      findGroup_eq_of_find?_none _ _ hf
    have hfold := findGroup_foldl l [] (firstTag e)
    rw [getEndpointsByTag] at hnone
    rw [hnone] at hfold
    have hmem : e ∈ l.filter (fun x => firstTag x = firstTag e) :=
      List.mem_filter.mpr ⟨he, by simp⟩
    have hfilter : l.filter (fun x => firstTag x = firstTag e) = [] := by
      simpa [findGroup, List.find?] using hfold.symm
    rw [hfilter] at hmem
    simp at hmem
  | some g =>
    refine ⟨g, List.mem_of_find?_eq_some hf, ?_⟩
    have := List.find?_some hf
    simpa using this

/-- Every member of a group produced by one grouping step comes from
the accumulator or is the inserted endpoint. -/
theorem addToGroups_members (acc : List (String × List ParsedEndpoint)) (x : ParsedEndpoint)
    (g : String × List ParsedEndpoint) (hg : g ∈ addToGroups acc x)
    (y : ParsedEndpoint) (hy : y ∈ g.2) :
    (∃ g1 ∈ acc, y ∈ g1.2) ∨ y = x := by
  unfold addToGroups at hg
  by_cases hmem : acc.any (fun g => g.1 = firstTag x) = true
  · rw [if_pos hmem] at hg
    obtain ⟨g1, hg1, hEq⟩ := List.mem_map.mp hg
    by_cases hk : g1.1 = firstTag x
    · rw [if_pos hk] at hEq
      rw [← hEq] at hy
      simp only [List.mem_append, List.mem_singleton] at hy
      rcases hy with h | h
      · exact Or.inl ⟨g1, hg1, h⟩
      · exact Or.inr h
    · rw [if_neg hk] at hEq
      rw [← hEq] at hy
      exact Or.inl ⟨g1, hg1, hy⟩
  · rw [if_neg hmem] at hg
    rcases List.mem_append.mp hg with h | h
    · exact Or.inl ⟨g, h, hy⟩
    · simp only [List.mem_singleton] at h
      subst h
      simp only [List.mem_singleton] at hy
      exact Or.inr hy

/-- Every endpoint stored in a group of the fold comes from the
accumulator groups or from the input list. -/
theorem foldl_groups_members (l : List ParsedEndpoint) :
    ∀ (acc : List (String × List ParsedEndpoint)) (g : String × List ParsedEndpoint),
    g ∈ l.foldl addToGroups acc → ∀ y ∈ g.2, (∃ g1 ∈ acc, y ∈ g1.2) ∨ y ∈ l := by
  induction l with
  | nil =>
    intro acc g hg y hy
    exact Or.inl ⟨g, hg, hy⟩
  | cons x rest ih =>
    intro acc g hg y hy
    rcases ih (addToGroups acc x) g hg y hy with ⟨g1, hg1, hy1⟩ | h
    · rcases addToGroups_members acc x g1 hg1 y hy1 with h | h
      · exact Or.inl h
      · exact Or.inr (by simp [h])
    · exact Or.inr (List.mem_cons_of_mem x h)

/-- Every endpoint stored in a group of the grouping result is an
element of the input list. -/
theorem group_members_mem (l : List ParsedEndpoint) (g : String × List ParsedEndpoint)
    (hg : g ∈ getEndpointsByTag l) (y : ParsedEndpoint) (hy : y ∈ g.2) : y ∈ l := by
  rcases foldl_groups_members l [] g hg y hy with ⟨g1, hg1, _⟩ | h
  · simp at hg1
  · exact h

/-- When no group contains a failing endpoint, the routes loop writes
one file per group and does not throw. -/
theorem generateRoutesEventsAux_ok (gs : List (String × List ParsedEndpoint))
    (h : ∀ g ∈ gs, g.2.any endpointRouteRenderFails = false) :
    generateRoutesEventsAux gs
      = (gs.foldr (fun g acc =>
          FsEvent.mkdirRoutes :: FsEvent.write (OutPath.routesFile (jsToLowerCase g.1)) :: acc) [],
         false) := by
  induction gs with
  | nil => rfl
  | cons g rest ih =>
    have hg : g.2.any endpointRouteRenderFails = false := h g (by simp)
    have hrest := ih (fun g2 hg2 => h g2 (by simp [hg2]))
    unfold generateRoutesEventsAux
    rw [hg, hrest]
    rfl

/-- When every endpoint renders without failure, generateRoutes writes
one routes file per tag group and does not throw. -/
theorem generateRoutesEvents_ok (endpoints : List ParsedEndpoint)
    (h : endpoints.all (fun e => !endpointRouteRenderFails e) = true) :
    generateRoutesEvents endpoints
      = ((getEndpointsByTag endpoints).foldr (fun g acc =>
          FsEvent.mkdirRoutes :: FsEvent.write (OutPath.routesFile (jsToLowerCase g.1)) :: acc) [],
         false) := by
  unfold generateRoutesEvents
  apply generateRoutesEventsAux_ok
  intro g hg
  rw [List.any_eq_false]
  intro y hy
  have hmemy := group_members_mem endpoints g hg y hy
  have := (List.all_eq_true.mp h) y hmemy
  simpa using this

/-- Membership of the routes file write of every group in the
successful loop trace. -/
theorem mem_routesFile_foldr (gs : List (String × List ParsedEndpoint))
    (g : String × List ParsedEndpoint) (hg : g ∈ gs) :
    FsEvent.write (OutPath.routesFile (jsToLowerCase g.1)) ∈
      gs.foldr (fun g acc =>
        FsEvent.mkdirRoutes :: FsEvent.write (OutPath.routesFile (jsToLowerCase g.1)) :: acc) [] := by
  induction gs with
  | nil => simp at hg
  | cons hd rest ih =>
    rcases List.mem_cons.mp hg with heq | hmem
    · subst heq
      simp
    · simp only [List.foldr_cons, List.mem_cons]
      exact Or.inr (Or.inr (ih hmem))

/-- Membership of the handlers file write for every group. -/
theorem mem_generateHandlersEvents (endpoints : List ParsedEndpoint)
    (g : String × List ParsedEndpoint) (hg : g ∈ getEndpointsByTag endpoints) :
    FsEvent.write (OutPath.handlersFile (jsToLowerCase g.1)) ∈ generateHandlersEvents endpoints := by
  unfold generateHandlersEvents
  generalize hgs : getEndpointsByTag endpoints = gs at hg ⊢
  clear hgs
  induction gs with
  | nil => simp at hg
  | cons hd rest ih =>
    rcases List.mem_cons.mp hg with heq | hmem
    · subst heq
      simp
    · simp only [List.foldr_cons, List.mem_cons]
      exact Or.inr (Or.inr (ih hmem))

/-- The successful routes loop trace never contains the db schema file
write. -/
theorem schemaFile_not_mem_routesFoldr (gs : List (String × List ParsedEndpoint)) :
    FsEvent.write OutPath.schemaFile ∉
      gs.foldr (fun g acc =>
        FsEvent.mkdirRoutes :: FsEvent.write (OutPath.routesFile (jsToLowerCase g.1)) :: acc) [] := by
  induction gs with
  | nil => simp
  | cons hd rest ih => simp [ih]

/-- The handlers generator never writes the db schema file. -/
theorem schemaFile_not_mem_generateHandlersEvents (endpoints : List ParsedEndpoint) :
    FsEvent.write OutPath.schemaFile ∉ generateHandlersEvents endpoints := by
  unfold generateHandlersEvents
  generalize getEndpointsByTag endpoints = gs
  induction gs with
  | nil => simp
  | cons hd rest ih => simp [ih]

/-- Claim C10 (counterexample): a document with one endpoint carrying an
array typed query parameter and no object schemas is inside the claim
hypothesis space (one endpoint, zero schemas, parse succeeds), yet the
run does not complete successfully and writes no routes or handlers
file: the route template render throws on the unbound zodType identifier
before the first writeFileSync, the CLI catches and exits nonzero. -/
theorem c10_render_failure_counterexample :
    (parseOpenAPISpec arrayParamDoc).map (fun s => (s.endpoints.length, s.schemas.length))
      = Except.ok (1, 0) ∧
    runAction "app" false (some { fileExists := true, doc := arrayParamDoc }) []
      = ([FsEvent.normalize, FsEvent.mkdirTarget, FsEvent.mkdirRoutes],
         some "route template render failed") :=
  ⟨rfl, rfl⟩

/-- Claim C10 amended: with an empty schema list the schema generator
returns before rendering and writes nothing; a run over a document with
endpoints but no object schemas, none of whose endpoints trips a failing
helper invocation of the route template (no array typed path or query
parameter schema, no request body on an endpoint with parameters, no
response with content), completes successfully, producing routes and
handlers file writes but no db schema file write. -/
theorem c10_no_schema_file :
    (∀ schemas : List ParsedSchema, schemas.length = 0 → generateSchemaEvents schemas = []) ∧
    (∀ (appName : String) (sf : SpecFile) (templates : List String) (parsed : ParsedOpenAPI)
       (e : ParsedEndpoint) (es : List ParsedEndpoint),
       validateAppName appName = none →
       sf.fileExists = true →
       parseOpenAPISpec sf.doc = Except.ok parsed →
       parsed.endpoints = e :: es →
       parsed.schemas = [] →
       parsed.endpoints.all (fun x => !endpointRouteRenderFails x) = true →
       (runAction appName false (some sf) templates).2 = none ∧
       FsEvent.write OutPath.schemaFile ∉ (runAction appName false (some sf) templates).1 ∧
       FsEvent.write (OutPath.routesFile (jsToLowerCase (firstTag e)))
         ∈ (runAction appName false (some sf) templates).1 ∧
       FsEvent.write (OutPath.handlersFile (jsToLowerCase (firstTag e)))
         ∈ (runAction appName false (some sf) templates).1) := by
  constructor
  · intro schemas h
    unfold generateSchemaEvents
    rw [if_pos h]
  · intro appName sf templates parsed e es hv hf hp hend hsch hall
    have hro := generateRoutesEvents_ok parsed.endpoints hall
    have htr : (runAction appName false (some sf) templates).1
        = FsEvent.normalize :: FsEvent.mkdirTarget ::
          (templates.map (fun n => FsEvent.write (OutPath.scaffold n))
            ++ (getEndpointsByTag parsed.endpoints).foldr (fun g acc =>
                 FsEvent.mkdirRoutes :: FsEvent.write (OutPath.routesFile (jsToLowerCase g.1)) :: acc) []
            ++ generateHandlersEvents parsed.endpoints
            ++ generateSchemaEvents parsed.schemas) := by
      simp [runAction, hv, hf, hp, hro]
    have hout : (runAction appName false (some sf) templates).2 = none := by
      simp [runAction, hv, hf, hp, hro]
    have hschemaEv : generateSchemaEvents parsed.schemas = [] := by
      rw [hsch]
      rfl
    have hge : e ∈ parsed.endpoints := by
      rw [hend]
      simp
    obtain ⟨g, hgmem, hgkey⟩ := exists_group_of_mem parsed.endpoints e hge
    have hroutes := mem_routesFile_foldr (getEndpointsByTag parsed.endpoints) g hgmem
    have hhandlers := mem_generateHandlersEvents parsed.endpoints g hgmem
    rw [hgkey] at hroutes hhandlers
    refine ⟨hout, ?_, ?_, ?_⟩
    · rw [htr, hschemaEv]
      intro hmem
      simp at hmem
      rcases hmem with h | h
      · exact schemaFile_not_mem_routesFoldr _ h
      · exact schemaFile_not_mem_generateHandlersEvents _ h
    · rw [htr]
      simp [List.mem_cons, List.mem_append, hroutes]
    · rw [htr]
      simp [List.mem_cons, List.mem_append, hhandlers]

/-- Witness for the amended C10 on the one-operation pets document
without component schemas: the run succeeds, writes the pets routes and
handlers files and does not write the db schema file. -/
theorem c10_no_schema_file_witness :
    (runAction "app" false (some { fileExists := true, doc := petsDoc }) ["package.json"]).2 = none ∧
    FsEvent.write OutPath.schemaFile
      ∉ (runAction "app" false (some { fileExists := true, doc := petsDoc }) ["package.json"]).1 ∧
    FsEvent.write (OutPath.routesFile (jsToLowerCase (firstTag demoPetsEndpoint)))
      ∈ (runAction "app" false (some { fileExists := true, doc := petsDoc }) ["package.json"]).1 ∧
    FsEvent.write (OutPath.handlersFile (jsToLowerCase (firstTag demoPetsEndpoint)))
      ∈ (runAction "app" false (some { fileExists := true, doc := petsDoc }) ["package.json"]).1 :=
  c10_no_schema_file.2 "app" { fileExists := true, doc := petsDoc } ["package.json"]
    demoParsedPets demoPetsEndpoint [] rfl rfl rfl rfl rfl rfl

end Hono
